import Mathlib

/-!
Verification of the doob-terarium repository's specified numeric logic.

The development shallowly embeds the self-contained logic of the two
pipelines described in the specification:

* the face server (`module-face-id-sever/face_server.py`): the
  decode-and-reshape stage of `process_image`, the cosine-similarity
  matcher `find_match`, and the threshold decision of `verify`;
* the motion converter (`module-motion-generation/npy_to_fbx.py`):
  `process_motion_data` (yaw rotation), `detect_active_frames` plus the
  trimming slice of `convert_single_file`, `append_loop_frames`, and the
  renumbering conversion loop of the batch driver.

Machine floating point is modelled by the reals; numpy arrays by lists.
-/

namespace FaceServer

/-- Shape-level model of the decode-and-reshape stage of `process_image`
(`face_server.py` lines 90-96).  `numpy.reshape` of a flat buffer of
`len` bytes to `(h, w, 3)` succeeds exactly when `len = h * w * 3`, and
raises `ValueError` otherwise; a raised error is modelled as `none`. -/
def reshape3 (len h w : ℕ) : Option (ℕ × ℕ) :=
  if len = h * w * 3 then some (h, w) else none

/-- The decode-and-reshape stage of `process_image`, at the level of
buffer length and array shape.  If the buffer length differs from
`width * height * 3`, the code slices the buffer to
`eff_size = (len / 3) * 3` bytes (`img_np[:eff_size]`), computes
`h_eff = eff_size / (width * 3)` and reshapes the sliced buffer to
`(h_eff, width, 3)`; otherwise it reshapes to `(height, width, 3)`. -/
def process_image_shape (len width height : ℕ) : Option (ℕ × ℕ) :=
  if len ≠ width * height * 3 then
    let eff_size := (len / 3) * 3
    let h_eff := eff_size / (width * 3)
    reshape3 eff_size h_eff width
  else
    reshape3 len height width

/-- Dot product of two embedding vectors, `np.dot` on 1-D arrays. -/
def dotp (a b : List ℝ) : ℝ := (List.zipWith (· * ·) a b).sum

/-- Euclidean norm of a vector, `numpy.linalg.norm`. -/
noncomputable def norm2 (a : List ℝ) : ℝ :=
  Real.sqrt ((a.map (fun x => x ^ 2)).sum)

/-- The cosine similarity computed inside `find_match` (line 124):
`np.dot(embedding, data) / (norm(embedding) * norm(data))`. -/
noncomputable def cosSim (a b : List ℝ) : ℝ := dotp a b / (norm2 a * norm2 b)

/-- One iteration of the loop of `find_match` (lines 123-126): the
running best `(best_id, best_sim)` is replaced when the candidate's
similarity is strictly greater. -/
noncomputable def match_step (embedding : List ℝ) (best : Option String × ℝ)
    (p : String × List ℝ) : Option String × ℝ :=
  if best.2 < cosSim embedding p.2 then (some p.1, cosSim embedding p.2)
  else best

/-- `find_match` (`face_server.py` lines 121-127): linear scan over the
store, starting from `(None, 0.0)`. -/
noncomputable def find_match (embedding : List ℝ)
    (db : List (String × List ℝ)) : Option String × ℝ :=
  db.foldl (match_step embedding) (none, 0)

/-- The fixed similarity threshold (`SIMILARITY_THRESHOLD = 0.5`). -/
noncomputable def SIMILARITY_THRESHOLD : ℝ := 0.5

/-- The decision tail of the `verify` handler (lines 185-190): with the
match result `(vid, sim)`, answer `(visitor_id, is_registered)`; the
comparison `sim > SIMILARITY_THRESHOLD` is strict, and the negative
branch reports an empty identifier and `False`. -/
noncomputable def verifyDecision (vid : Option String) (sim : ℝ) :
    Option String × Bool :=
  if SIMILARITY_THRESHOLD < sim then (vid, true) else (some "", false)

end FaceServer

namespace Batch

/-- One row of the input manifest, as used by the conversion loop
(`npy_to_fbx.py` lines 245-283): only the `prompt`, `original_id` and
`duration_sec` columns are read. -/
structure ManifestTask where
  prompt : String
  original_id : String
  duration_sec : String

/-- One row of the output manifest (`csv_header` at line 234). -/
structure ManifestRow where
  index : ℕ
  prompt : String
  original_id : String
  duration_sec : String
  fbx_filename : String

/-- Python's `f"{n:04d}"` formatting of the clip name (line 256). -/
def pad4 (n : ℕ) : String :=
  let s := toString n
  String.mk (List.replicate (4 - s.length) '0') ++ s

/-- The output row written for a successful conversion (lines 267-273). -/
def mkRow (newIndex : ℕ) (t : ManifestTask) : ManifestRow :=
  { index := newIndex
    prompt := t.prompt
    original_id := t.original_id
    duration_sec := t.duration_sec
    fbx_filename := pad4 newIndex ++ ".fbx" }

/-- The conversion loop of the batch driver (`npy_to_fbx.py` lines
242-283).  The filesystem check `os.path.exists(source_path)` and the
outcome of `convert_single_file` are external effects, abstracted as the
oracles `fileExists` and `convertOk` on the task.  A missing source file
skips the task; a failed conversion skips the task; only a success
appends a row numbered `newIndex` and increments `newIndex`. -/
def batchLoop (fileExists convertOk : ManifestTask → Bool) :
    List ManifestTask → ℕ → List ManifestRow
  | [], _ => []
  | t :: rest, newIndex =>
    if fileExists t then
      if convertOk t then
        mkRow newIndex t :: batchLoop fileExists convertOk rest (newIndex + 1)
      else
        batchLoop fileExists convertOk rest newIndex
    else
      batchLoop fileExists convertOk rest newIndex

/-- The tasks that convert successfully: the source file exists and the
conversion succeeds. -/
def successfulTasks (fileExists convertOk : ManifestTask → Bool)
    (tasks : List ManifestTask) : List ManifestTask :=
  tasks.filter (fun t => fileExists t && convertOk t)

/-- Specification-side renumbering: the given tasks receive consecutive
indices starting at `n`, with no gaps. -/
def numberRows (n : ℕ) : List ManifestTask → List ManifestRow
  | [] => []
  | t :: ts => mkRow n t :: numberRows (n + 1) ts

end Batch

namespace Motion

/-- A joint position: an `(x, y, z)` coordinate triple. -/
abbrev Joint : Type := ℝ × ℝ × ℝ

/-- A frame: the ordered list of joint positions at one time step. -/
abbrev Frame : Type := List Joint

/-- Degrees to radians, `math.radians` (line 44). -/
noncomputable def radians (deg : ℝ) : ℝ := deg * Real.pi / 180

/-- The per-joint yaw rotation of `process_motion_data` (lines 47-50):
`x' = x*cos r - z*sin r`, `z' = x*sin r + z*cos r`, `y` unchanged. -/
noncomputable def rotateJoint (rad : ℝ) (p : Joint) : Joint :=
  (p.1 * Real.cos rad - p.2.2 * Real.sin rad,
   p.2.1,
   p.1 * Real.sin rad + p.2.2 * Real.cos rad)

/-- `process_motion_data` (`npy_to_fbx.py` lines 41-51), parametrized by
the rotation angle in degrees (the source reads the module constant
`FIX_ROTATION`); the rotation is skipped when the angle is zero. -/
noncomputable def process_motion_data (angleDeg : ℝ) (data : List Frame) :
    List Frame :=
  if angleDeg = 0 then data
  else data.map (fun f => f.map (rotateJoint (radians angleDeg)))

/-- Euclidean distance between two joint positions: one entry of
`np.linalg.norm(a - b, axis=1)` applied along the coordinate axis. -/
noncomputable def jointDist (p q : Joint) : ℝ :=
  Real.sqrt ((p.1 - q.1) ^ 2 + (p.2.1 - q.2.1) ^ 2 + (p.2.2 - q.2.2) ^ 2)

/-- Mean over joints of the per-joint distance between two frames: one
entry of `np.mean(np.linalg.norm(data[1:] - data[:-1], axis=2), axis=1)`
(lines 55-56). -/
noncomputable def frameEnergy (f g : Frame) : ℝ :=
  (List.zipWith jointDist f g).sum / ((List.zipWith jointDist f g).length : ℝ)

/-- `motion_energy[i]` of `detect_active_frames`: the mean inter-frame
joint displacement between frames `i` and `i + 1`. -/
noncomputable def motion_energy (data : List Frame) (i : ℕ) : ℝ :=
  frameEnergy (data.getD i []) (data.getD (i + 1) [])

/-- The backward scan of `detect_active_frames` (lines 57-61):
`for i in range(total_frames - 2, 0, -1)` returns `i + 2` at the first
(largest) index `i ≥ 1` with `motion_energy[i] > threshold`, and the
total frame count when no such index exists.  `scan_back data thr n`
scans the indices `n, n-1, ..., 1`. -/
noncomputable def scan_back (data : List Frame) (thr : ℝ) : ℕ → ℕ
  | 0 => data.length
  | i + 1 =>
    if thr < motion_energy data (i + 1) then (i + 1) + 2
    else scan_back data thr i

/-- `detect_active_frames` (`npy_to_fbx.py` lines 53-62): the backward
scan starts at `total_frames - 2`, and the result is
`max(10, min(real_end, total_frames))`. -/
noncomputable def detect_active_frames (data : List Frame) (thr : ℝ) : ℕ :=
  max 10 (min (scan_back data thr (data.length - 2)) data.length)

/-- The trimming step of `convert_single_file` (lines 119-120):
`trimmed_data = corrected_data[:active_len]` with
`active_len = detect_active_frames(corrected_data, threshold)`. -/
noncomputable def trimTrailingIdle (data : List Frame) (thr : ℝ) : List Frame :=
  data.take (detect_active_frames data thr)

/-- The loop bounds `LOOP_MIN_FRAMES` and `LOOP_MAX_FRAMES`
(lines 26-27). -/
def LOOP_MIN_FRAMES : ℕ := 15

/-- See `LOOP_MIN_FRAMES`. -/
def LOOP_MAX_FRAMES : ℕ := 60

/-- The maximum per-joint distance between the first and last frame of a
trajectory (`append_loop_frames` lines 75-78).  The distances are
nonnegative, so folding `max` from `0` agrees with `np.max` on every
nonempty array of distances. -/
noncomputable def maxDist (data : List Frame) : ℝ :=
  (List.zipWith jointDist (data.getD 0 []) (data.getD (data.length - 1) [])).foldl
    max 0

/-- The transition length of `append_loop_frames` (lines 79-80):
`int(max_dist * 40)` — Python `int` truncates, hence the floor — clamped
by `max(LOOP_MIN_FRAMES, min(LOOP_MAX_FRAMES, transition_len))`. -/
noncomputable def transitionLen (data : List Frame) : ℕ :=
  max LOOP_MIN_FRAMES (min LOOP_MAX_FRAMES (⌊maxDist data * 40⌋.toNat))

/-- The smoothstep easing `t * t * (3 - 2 * t)` (line 82). -/
def smoothstep (t : ℝ) : ℝ := t * t * (3 - 2 * t)

/-- The per-joint blend of line 84:
`end_pose * (1 - s) + start_pose * s`, componentwise. -/
def blendJoint (s : ℝ) (pEnd pStart : Joint) : Joint :=
  (pEnd.1 * (1 - s) + pStart.1 * s,
   pEnd.2.1 * (1 - s) + pStart.2.1 * s,
   pEnd.2.2 * (1 - s) + pStart.2.2 * s)

/-- One generated transition frame of `append_loop_frames` (line 84). -/
def loopFrame (startPose endPose : Frame) (s : ℝ) : Frame :=
  List.zipWith (blendJoint s) endPose startPose

/-- `append_loop_frames` (`npy_to_fbx.py` lines 74-85).  The weights
`np.linspace(0, 1, transition_len + 1)[1:]` are `(k + 1) / L` for
`k = 0, ..., L - 1`; each is eased by `smoothstep` and blended between
the end pose and the start pose, and the generated frames are appended
after the data. -/
noncomputable def append_loop_frames (data : List Frame) : List Frame :=
  data ++ (List.range (transitionLen data)).map
    (fun (k : ℕ) =>
      loopFrame (data.getD 0 []) (data.getD (data.length - 1) [])
        (smoothstep (((k : ℝ) + 1) / (transitionLen data : ℝ))))

/-- A 100-frame, one-joint trajectory used to exercise the trimmer:
frames 0-40 hold the origin, frames 41-99 hold `x = 1`, so the only
inter-frame motion is between frames 40 and 41. -/
noncomputable def stepTraj : List Frame :=
  List.replicate 41 [((0 : ℝ), 0, 0)] ++ List.replicate 59 [((1 : ℝ), 0, 0)]

/-- A two-frame, one-joint trajectory whose end pose is `0.515` away
from its start pose, so `max_dist * 40 = 20.6` falls strictly inside the
clamp interval with fractional part above one half. -/
noncomputable def c3Traj : List Frame :=
  [[((0 : ℝ), 0, 0)], [((0.515 : ℝ), 0, 0)]]

/-- A constant two-frame trajectory: the start pose equals the end
pose. -/
noncomputable def c6Traj : List Frame :=
  [[((0 : ℝ), 0, 0)], [((0 : ℝ), 0, 0)]]

/-- A two-frame trajectory whose start pose differs from its end
pose. -/
noncomputable def c6WitnessTraj : List Frame :=
  [[((0 : ℝ), 0, 0)], [((1 : ℝ), 0, 0)]]

end Motion

namespace FaceServer

/-- When every candidate's similarity is negative and the accumulator's
score is nonnegative, the scan of `find_match` never updates its
accumulator. -/
lemma foldl_match_step_no_update (emb : List ℝ) :
    ∀ (db : List (String × List ℝ)) (acc : Option String × ℝ), 0 ≤ acc.2 →
      (∀ p ∈ db, cosSim emb p.2 < 0) →
      db.foldl (match_step emb) acc = acc := by
  intro db
  induction db with
  | nil => intro acc _ _; rfl
  | cons p ps ih =>
    intro acc hacc hall
    have hneg : cosSim emb p.2 < 0 := hall p (by simp)
    have hstep : match_step emb acc p = acc := by
      unfold match_step
      exact if_neg (not_lt.mpr (le_of_lt (lt_of_lt_of_le hneg hacc)))
    rw [List.foldl_cons, hstep]
    exact ih acc hacc (fun q hq => hall q (List.mem_cons_of_mem _ hq))

/-- The scan of `find_match` preserves the invariant that the running
best score is nonnegative and that a named best has a positive score. -/
lemma foldl_match_step_pos (emb : List ℝ) :
    ∀ (db : List (String × List ℝ)) (acc : Option String × ℝ), 0 ≤ acc.2 →
      (∀ i s, acc = (some i, s) → 0 < s) →
      0 ≤ (db.foldl (match_step emb) acc).2 ∧
        (∀ i s, db.foldl (match_step emb) acc = (some i, s) → 0 < s) := by
  intro db
  induction db with
  | nil => intro acc hacc hpos; exact ⟨hacc, hpos⟩
  | cons p ps ih =>
    intro acc hacc hpos
    rw [List.foldl_cons]
    by_cases h : acc.2 < cosSim emb p.2
    · have hstep : match_step emb acc p = (some p.1, cosSim emb p.2) := by
        unfold match_step
        exact if_pos h
      rw [hstep]
      have hsim : 0 < cosSim emb p.2 := lt_of_le_of_lt hacc h
      refine ih _ (le_of_lt hsim) ?_
      intro i s hs
      have : s = cosSim emb p.2 := (Prod.mk.injEq _ _ _ _ ▸ hs).2.symm
      rw [this]
      exact hsim
    · have hstep : match_step emb acc p = acc := by
        unfold match_step
        exact if_neg h
      rw [hstep]
      exact ih acc hacc hpos

/-- C2: `find_match` starts its best score at `0.0`, so the empty store
yields `(none, 0.0)`, an all-negative store yields `(none, 0.0)`, and a
reported best match always has a strictly positive score. -/
theorem C2_find_match_zero_init :
    (∀ emb : List ℝ, find_match emb [] = (none, 0)) ∧
    (∀ (emb : List ℝ) (db : List (String × List ℝ)),
        (∀ p ∈ db, cosSim emb p.2 < 0) → find_match emb db = (none, 0)) ∧
    (∀ (emb : List ℝ) (db : List (String × List ℝ)) (i : String) (s : ℝ),
        find_match emb db = (some i, s) → 0 < s) := by
  refine ⟨fun emb => rfl, fun emb db hall => ?_, fun emb db i s h => ?_⟩
  · exact foldl_match_step_no_update emb db (none, 0) le_rfl hall
  · refine (foldl_match_step_pos emb db (none, 0) le_rfl ?_).2 i s h
    intro i s hs
    exact absurd (Prod.mk.injEq _ _ _ _ ▸ hs).1 (by simp)

/-- Witness for C2 at concrete inputs: the empty store, a store whose
only candidate has similarity `-1`, and a store whose only candidate has
similarity `1`. -/
theorem C2_witness :
    find_match [(1 : ℝ)] [] = (none, 0) ∧
    find_match [(1 : ℝ)] [("a", [(-1 : ℝ)])] = (none, 0) ∧
    0 < (find_match [(1 : ℝ)] [("a", [(1 : ℝ)])]).2 := by
  have hn1 : norm2 [(1 : ℝ)] = 1 := by
    simp [norm2]
  have hneg : cosSim [(1 : ℝ)] [(-1 : ℝ)] < 0 := by
    have : norm2 [(-1 : ℝ)] = 1 := by
      simp [norm2]
    simp [cosSim, dotp, hn1, this]
  have hc : cosSim [(1 : ℝ)] [(1 : ℝ)] = 1 := by
    simp [cosSim, dotp, hn1]
  have heq : find_match [(1 : ℝ)] [("a", [(1 : ℝ)])] = (some "a", 1) := by
    simp [find_match, match_step, hc]
  refine ⟨C2_find_match_zero_init.1 [(1 : ℝ)], ?_, ?_⟩
  · exact C2_find_match_zero_init.2.1 _ _ (by simpa using hneg)
  · rw [heq]
    exact C2_find_match_zero_init.2.2 _ _ "a" 1 heq

/-- C1 (evaluation at the failing input): a 15-byte buffer with
`width = 4`, `height = 1` takes the truncation fallback, slices to
`eff_size = 15` bytes, and then attempts to reshape 15 bytes to
`(1, 4, 3) = 12` elements, which raises `ValueError` — the fallback does
not discard the trailing partial row. -/
theorem C1_truncation_fallback_raises :
    process_image_shape 15 4 1 = none := by decide

/-- C10: when the best-match similarity equals `SIMILARITY_THRESHOLD`
exactly, the `verify` decision uses the strict comparison
`sim > SIMILARITY_THRESHOLD`, so the response is the empty identifier
with `is_registered = false`, whatever the matched identifier was. -/
theorem C10_threshold_equality_rejected :
    ∀ vid : Option String,
      verifyDecision vid SIMILARITY_THRESHOLD = (some "", false) := by
  intro vid
  unfold verifyDecision
  rw [if_neg (lt_irrefl _)]

end FaceServer

namespace Batch

/-- The conversion loop agrees with renumbering the successful tasks
from any starting index. -/
lemma batchLoop_eq_numberRows (fe co : ManifestTask → Bool) :
    ∀ (tasks : List ManifestTask) (n : ℕ),
      batchLoop fe co tasks n = numberRows n (successfulTasks fe co tasks) := by
  intro tasks
  induction tasks with
  | nil => intro n; rfl
  | cons t ts ih =>
    intro n
    by_cases hfe : fe t
    · by_cases hco : co t
      · simp [batchLoop, successfulTasks, numberRows, List.filter, hfe, hco,
          ih, successfulTasks]
      · simp [batchLoop, successfulTasks, List.filter, hfe, hco, ih,
          successfulTasks]
    · simp [batchLoop, successfulTasks, List.filter, hfe, ih, successfulTasks]

/-- Renumbered rows carry the consecutive indices `n, n+1, ...`. -/
lemma numberRows_map_index :
    ∀ (tasks : List ManifestTask) (n : ℕ),
      (numberRows n tasks).map ManifestRow.index = List.range' n tasks.length := by
  intro tasks
  induction tasks with
  | nil => intro n; rfl
  | cons t ts ih =>
    intro n
    simp [numberRows, mkRow, List.range', ih]

/-- C7: the output manifest of the batch driver is exactly the list of
successfully converted tasks, renumbered sequentially from `1` with no
gaps; a task that fails (missing source file or failed conversion)
consumes no index. -/
theorem C7_manifest_renumbering :
    ∀ (fe co : ManifestTask → Bool) (tasks : List ManifestTask),
      batchLoop fe co tasks 1 = numberRows 1 (successfulTasks fe co tasks) ∧
      (batchLoop fe co tasks 1).map ManifestRow.index =
        List.range' 1 (successfulTasks fe co tasks).length := by
  intro fe co tasks
  refine ⟨batchLoop_eq_numberRows fe co tasks 1, ?_⟩
  rw [batchLoop_eq_numberRows fe co tasks 1]
  exact numberRows_map_index _ 1

end Batch

namespace Motion

/-- Rotating a joint by an angle and then by its negation restores the
joint exactly. -/
lemma rotateJoint_inv (r : ℝ) (p : Joint) :
    rotateJoint (-r) (rotateJoint r p) = p := by
  obtain ⟨x, y, z⟩ := p
  have h := Real.sin_sq_add_cos_sq r
  simp only [rotateJoint, Real.cos_neg, Real.sin_neg, Prod.mk.injEq]
  refine ⟨?_, by trivial, ?_⟩
  · linear_combination x * h
  · linear_combination z * h

/-- Frame-level inverse of the yaw rotation. -/
lemma map_rotateJoint_inv (r : ℝ) (f : Frame) :
    (f.map (rotateJoint r)).map (rotateJoint (-r)) = f := by
  induction f with
  | nil => rfl
  | cons p ps ih =>
    rw [List.map_cons, List.map_cons, rotateJoint_inv, ih]

/-- Trajectory-level inverse of the yaw rotation. -/
lemma map_map_rotateJoint_inv (r : ℝ) (data : List Frame) :
    ((data.map (fun f => f.map (rotateJoint r))).map
        (fun f => f.map (rotateJoint (-r)))) = data := by
  induction data with
  | nil => rfl
  | cons f fs ih =>
    rw [List.map_cons, List.map_cons, map_rotateJoint_inv, ih]

/-- C8: `process_motion_data` with angle `θ` followed by
`process_motion_data` with angle `-θ` returns the original joint
coordinates, for every trajectory and every angle. -/
theorem C8_rotate_yaw_inverse :
    ∀ (data : List Frame) (θ : ℝ),
      process_motion_data (-θ) (process_motion_data θ data) = data := by
  intro data θ
  by_cases hθ : θ = 0
  · simp [process_motion_data, hθ]
  · have h2 : (-θ : ℝ) ≠ 0 := neg_ne_zero.mpr hθ
    have hr : radians (-θ) = -(radians θ) := by unfold radians; ring
    unfold process_motion_data
    rw [if_neg hθ, if_neg h2, hr]
    exact map_map_rotateJoint_inv (radians θ) data

/-- When no scanned index has motion energy above the threshold, the
backward scan of `detect_active_frames` falls through to the full frame
count. -/
lemma scan_back_all_le (data : List Frame) (thr : ℝ) :
    ∀ n : ℕ, (∀ j, 1 ≤ j → j ≤ n → motion_energy data j ≤ thr) →
      scan_back data thr n = data.length := by
  intro n
  induction n with
  | zero => intro _; rfl
  | succ k ih =>
    intro h
    rw [scan_back, if_neg (not_lt.mpr (h (k + 1) (by omega) le_rfl))]
    exact ih (fun j h1 h2 => h j h1 (by omega))

/-- The backward scan stops at the largest index whose motion energy
exceeds the threshold and returns that index plus two. -/
lemma scan_back_found (data : List Frame) (thr : ℝ) (k : ℕ)
    (hk : thr < motion_energy data (k + 1)) :
    ∀ n : ℕ, k + 1 ≤ n →
      (∀ j, k + 1 < j → j ≤ n → motion_energy data j ≤ thr) →
      scan_back data thr n = k + 3 := by
  intro n
  induction n with
  | zero => intro h _; omega
  | succ m ih =>
    intro hle hall
    by_cases he : k + 1 = m + 1
    · rw [scan_back, if_pos (he ▸ hk)]
      omega
    · have hlt : k + 1 < m + 1 := by omega
      rw [scan_back, if_neg (not_lt.mpr (hall (m + 1) hlt le_rfl))]
      exact ih (by omega) (fun j hj1 hj2 => hall j hj1 (by omega))

/-- C4 (amended): the trimmed trajectory never exceeds the original
length, and has at least 10 frames whenever the original has at least 10
frames.  The unconditional lower bound of the original claim fails,
because the slice `data[:active_len]` cannot lengthen the data even
though `detect_active_frames` reports at least 10. -/
theorem C4_trim_bounds :
    ∀ (data : List Frame) (thr : ℝ),
      (trimTrailingIdle data thr).length ≤ data.length ∧
      (10 ≤ data.length → 10 ≤ (trimTrailingIdle data thr).length) := by
  intro data thr
  constructor
  · simp only [trimTrailingIdle, List.length_take]
    exact min_le_right _ _
  · intro h10
    simp only [trimTrailingIdle, List.length_take]
    refine le_min ?_ h10
    exact le_max_left _ _

/-- Witness for C4 (amended) on a 12-frame trajectory. -/
theorem C4_witness :
    (trimTrailingIdle (List.replicate 12 [((0 : ℝ), 0, 0)]) 0.002).length ≤ 12 ∧
    10 ≤ (trimTrailingIdle (List.replicate 12 [((0 : ℝ), 0, 0)]) 0.002).length := by
  have h := C4_trim_bounds (List.replicate 12 [((0 : ℝ), 0, 0)]) 0.002
  exact ⟨by simpa using h.1, h.2 (by simp)⟩

/-- The distance from a joint position to itself is zero. -/
lemma jointDist_self (p : Joint) : jointDist p p = 0 := by
  unfold jointDist
  norm_num

/-- The mean joint displacement between two one-joint frames is the
distance between the joints. -/
lemma frameEnergy_single (p q : Joint) : frameEnergy [p] [q] = jointDist p q := by
  unfold frameEnergy
  simp

/-- Motion energy inside a constant (replicated) trajectory. -/
lemma motion_energy_replicate (n : ℕ) (f : Frame) (i : ℕ)
    (h1 : i < n) (h2 : i + 1 < n) :
    motion_energy (List.replicate n f) i = frameEnergy f f := by
  unfold motion_energy
  rw [List.getD_eq_getElem _ _ (by simpa using h1),
    List.getD_eq_getElem _ _ (by simpa using h2)]
  rw [List.getElem_replicate _ _, List.getElem_replicate _ _]

/-- Counterexample to C4 as stated: a 5-frame static trajectory is
trimmed to 5 frames, fewer than the 10 frames the claim promises. -/
theorem C4_counterexample :
    ¬ (10 ≤ (trimTrailingIdle (List.replicate 5 [((0 : ℝ), 0, 0)]) 0.002).length) := by
  have hzero : ∀ j : ℕ, 1 ≤ j → j ≤ 3 →
      motion_energy (List.replicate 5 [((0 : ℝ), 0, 0)]) j ≤ 0.002 := by
    intro j h1 h3
    rw [motion_energy_replicate 5 _ j (by omega) (by omega), frameEnergy_single,
      jointDist_self]
    norm_num
  have hscan : scan_back (List.replicate 5 [((0 : ℝ), 0, 0)]) 0.002 3 = 5 := by
    have h := scan_back_all_le (List.replicate 5 [((0 : ℝ), 0, 0)]) 0.002 3 hzero
    simpa using h
  have hlen : (trimTrailingIdle (List.replicate 5 [((0 : ℝ), 0, 0)]) 0.002).length = 5 := by
    unfold trimTrailingIdle detect_active_frames
    rw [List.length_take]
    simp only [List.length_replicate]
    rw [show (5 : ℕ) - 2 = 3 from rfl, hscan]
    norm_num
  rw [hlen]
  omega

/-- C5: in a 100-frame trajectory whose motion energy exceeds the
threshold at index 40 and stays at or below it for all later indices,
the trimmer returns exactly 42 frames. -/
theorem C5_trim_100_to_42 :
    ∀ (data : List Frame) (thr : ℝ),
      data.length = 100 →
      thr < motion_energy data 40 →
      (∀ j, 41 ≤ j → j ≤ 98 → motion_energy data j ≤ thr) →
      (trimTrailingIdle data thr).length = 42 := by
  intro data thr hlen h40 hafter
  have hscan : scan_back data thr 98 = 42 := by
    have h := scan_back_found data thr 39 (by simpa using h40) 98 (by omega)
      (fun j hj1 hj2 => hafter j (by omega) hj2)
    simpa using h
  have hdetect : detect_active_frames data thr = 42 := by
    unfold detect_active_frames
    rw [hlen, show (100 : ℕ) - 2 = 98 from rfl, hscan]
    norm_num
  unfold trimTrailingIdle
  rw [List.length_take, hdetect, hlen]
  norm_num

end Motion

namespace Motion

/-- Frames 0-40 of `stepTraj` hold the origin. -/
lemma stepTraj_getD_lo (i : ℕ) (h : i ≤ 40) :
    stepTraj.getD i [] = [((0 : ℝ), 0, 0)] := by
  unfold stepTraj
  rw [List.getD_append _ _ _ _ (by simp; omega)]
  rw [List.getD_eq_getElem _ _ (by simp; omega)]
  exact List.getElem_replicate _ _

/-- Frames 41-99 of `stepTraj` hold `x = 1`. -/
lemma stepTraj_getD_hi (i : ℕ) (h1 : 41 ≤ i) (h2 : i ≤ 99) :
    stepTraj.getD i [] = [((1 : ℝ), 0, 0)] := by
  unfold stepTraj
  rw [List.getD_append_right _ _ _ _ (by simp; omega)]
  rw [List.getD_eq_getElem _ _ (by simp; omega)]
  exact List.getElem_replicate _ _

/-- The motion energy of `stepTraj` at index 40 is 1. -/
lemma stepTraj_energy_40 : motion_energy stepTraj 40 = 1 := by
  unfold motion_energy
  rw [stepTraj_getD_lo 40 le_rfl, stepTraj_getD_hi 41 le_rfl (by omega),
    frameEnergy_single]
  unfold jointDist
  norm_num

/-- The motion energy of `stepTraj` vanishes at every index past 40. -/
lemma stepTraj_energy_hi (j : ℕ) (h1 : 41 ≤ j) (h2 : j ≤ 98) :
    motion_energy stepTraj j = 0 := by
  unfold motion_energy
  rw [stepTraj_getD_hi j h1 (by omega), stepTraj_getD_hi (j + 1) (by omega) (by omega),
    frameEnergy_single, jointDist_self]

/-- Witness for C5: `stepTraj` with the source threshold `0.002` is
trimmed to exactly 42 frames. -/
theorem C5_witness : (trimTrailingIdle stepTraj 0.002).length = 42 := by
  refine C5_trim_100_to_42 stepTraj 0.002 (by simp [stepTraj]) ?_ ?_
  · rw [stepTraj_energy_40]
    norm_num
  · intro j hj1 hj2
    rw [stepTraj_energy_hi j hj1 hj2]
    norm_num

end Motion

namespace Motion

/-- Appending the loop transition grows the trajectory by exactly
`transitionLen` frames. -/
lemma append_loop_length (data : List Frame) :
    (append_loop_frames data).length = data.length + transitionLen data := by
  unfold append_loop_frames
  rw [List.length_append, List.length_map, List.length_range]

/-- The clamp keeps the transition length at or above
`LOOP_MIN_FRAMES`. -/
lemma transitionLen_lower (data : List Frame) :
    LOOP_MIN_FRAMES ≤ transitionLen data := by
  unfold transitionLen
  exact le_max_left _ _

/-- The clamp keeps the transition length at or below
`LOOP_MAX_FRAMES`. -/
lemma transitionLen_upper (data : List Frame) :
    transitionLen data ≤ LOOP_MAX_FRAMES := by
  unfold transitionLen
  exact max_le (by norm_num [LOOP_MIN_FRAMES, LOOP_MAX_FRAMES]) (min_le_left _ _)

/-- C3 (amended): for a non-empty trajectory, `append_loop_frames`
appends exactly `transitionLen` frames, where `transitionLen` is the
integer truncation `int(maxDist * 40)` — the floor, not the rounding —
clamped to `[15, 60]`. -/
theorem C3_loop_growth (data : List Frame) (_h : data ≠ []) :
    (append_loop_frames data).length =
      data.length +
        max LOOP_MIN_FRAMES (min LOOP_MAX_FRAMES (⌊maxDist data * 40⌋.toNat)) ∧
    LOOP_MIN_FRAMES ≤ transitionLen data ∧
    transitionLen data ≤ LOOP_MAX_FRAMES :=
  ⟨append_loop_length data, transitionLen_lower data, transitionLen_upper data⟩

/-- Witness for C3 (amended) on a one-frame trajectory. -/
theorem C3_witness :
    (append_loop_frames [[((0 : ℝ), 0, 0)]]).length =
      1 + max LOOP_MIN_FRAMES
          (min LOOP_MAX_FRAMES (⌊maxDist [[((0 : ℝ), 0, 0)]] * 40⌋.toNat)) ∧
    LOOP_MIN_FRAMES ≤ transitionLen [[((0 : ℝ), 0, 0)]] ∧
    transitionLen [[((0 : ℝ), 0, 0)]] ≤ LOOP_MAX_FRAMES := by
  have h := C3_loop_growth [[((0 : ℝ), 0, 0)]] (by simp)
  simpa using h

/-- The single joint of `c3Traj` moves by exactly `0.515`. -/
lemma c3_jointDist :
    jointDist ((0 : ℝ), 0, 0) ((0.515 : ℝ), 0, 0) = 0.515 := by
  have h1 : jointDist ((0 : ℝ), 0, 0) ((0.515 : ℝ), 0, 0) =
      Real.sqrt (((0 : ℝ) - 0.515) ^ 2 + ((0 : ℝ) - 0) ^ 2 + ((0 : ℝ) - 0) ^ 2) :=
    rfl
  rw [h1,
    show ((0 : ℝ) - 0.515) ^ 2 + ((0 : ℝ) - 0) ^ 2 + ((0 : ℝ) - 0) ^ 2 =
      (0.515 : ℝ) ^ 2 from by norm_num]
  exact Real.sqrt_sq (by norm_num)

/-- The maximum joint displacement of `c3Traj` is `0.515`. -/
lemma c3Traj_maxDist : maxDist c3Traj = 0.515 := by
  have h0 : c3Traj.getD 0 [] = [((0 : ℝ), 0, 0)] := rfl
  have h1 : c3Traj.getD (c3Traj.length - 1) [] = [((0.515 : ℝ), 0, 0)] := rfl
  unfold maxDist
  rw [h0, h1]
  simp only [List.zipWith_cons_cons, List.zipWith_nil_left, List.foldl_cons,
    List.foldl_nil]
  rw [c3_jointDist]
  exact max_eq_right (by norm_num)

/-- Counterexample to C3 as stated: on `c3Traj`, `max_dist * 40 = 20.6`;
the code truncates to 20 transition frames while the claim's
`round(maxDist * 40)` gives 21, so the claimed output length is wrong. -/
theorem C3_counterexample :
    (append_loop_frames c3Traj).length ≠
      c3Traj.length +
        max LOOP_MIN_FRAMES
          (min LOOP_MAX_FRAMES (round (maxDist c3Traj * 40)).toNat) := by
  have hfloor : ⌊maxDist c3Traj * 40⌋ = 20 := by
    rw [c3Traj_maxDist, Int.floor_eq_iff]
    norm_num
  have hround : round (maxDist c3Traj * 40) = (21 : ℤ) := by
    rw [c3Traj_maxDist, round_eq, Int.floor_eq_iff]
    norm_num
  rw [append_loop_length c3Traj, hround]
  unfold transitionLen
  rw [hfloor]
  norm_num [LOOP_MIN_FRAMES, LOOP_MAX_FRAMES, c3Traj]
  decide

end Motion

namespace Motion

/-- With the final weight `s = 1`, the blend returns the start joint. -/
lemma blendJoint_one (a b : Joint) : blendJoint 1 a b = b := by
  obtain ⟨a1, a2, a3⟩ := a
  obtain ⟨b1, b2, b3⟩ := b
  unfold blendJoint
  norm_num

/-- With the final weight `s = 1`, a blended frame is the start pose. -/
lemma zipWith_blendJoint_one (e p : Frame) (h : e.length = p.length) :
    List.zipWith (blendJoint 1) e p = p := by
  induction e generalizing p with
  | nil =>
    cases p with
    | nil => rfl
    | cons b bs => simp at h
  | cons a as ih =>
    cases p with
    | nil => simp at h
    | cons b bs =>
      rw [List.zipWith_cons_cons, blendJoint_one, ih bs (by simpa using h)]

/-- With a nonzero weight, a blended joint equals the end joint exactly
when start and end joints already coincide. -/
lemma blendJoint_eq_iff (s : ℝ) (hs : s ≠ 0) (a b : Joint) :
    blendJoint s a b = a ↔ b = a := by
  obtain ⟨a1, a2, a3⟩ := a
  obtain ⟨b1, b2, b3⟩ := b
  simp only [blendJoint, Prod.mk.injEq]
  constructor
  · rintro ⟨e1, e2, e3⟩
    refine ⟨?_, ?_, ?_⟩
    · have hz : s * (b1 - a1) = 0 := by linear_combination e1
      rcases mul_eq_zero.mp hz with hz | hz
      · exact absurd hz hs
      · linarith
    · have hz : s * (b2 - a2) = 0 := by linear_combination e2
      rcases mul_eq_zero.mp hz with hz | hz
      · exact absurd hz hs
      · linarith
    · have hz : s * (b3 - a3) = 0 := by linear_combination e3
      rcases mul_eq_zero.mp hz with hz | hz
      · exact absurd hz hs
      · linarith
  · rintro ⟨e1, e2, e3⟩
    rw [e1, e2, e3]
    refine ⟨by ring, by ring, by ring⟩

/-- With a nonzero weight, a blended frame equals the end pose exactly
when the start pose already equals the end pose. -/
lemma zipWith_blendJoint_eq_iff (s : ℝ) (hs : s ≠ 0) :
    ∀ (e p : Frame), e.length = p.length →
      (List.zipWith (blendJoint s) e p = e ↔ p = e) := by
  intro e
  induction e with
  | nil =>
    intro p hp
    cases p with
    | nil => simp
    | cons b bs => simp at hp
  | cons a as ih =>
    intro p hp
    cases p with
    | nil => simp at hp
    | cons b bs =>
      rw [List.zipWith_cons_cons]
      constructor
      · intro h
        simp only [List.cons.injEq] at h
        obtain ⟨h1, h2⟩ := h
        have hba : b = a := (blendJoint_eq_iff s hs a b).mp h1
        have hbs : bs = as := (ih bs (by simpa using hp)).mp h2
        rw [hba, hbs]
      · intro h
        simp only [List.cons.injEq] at h
        obtain ⟨hba, hbs⟩ := h
        rw [hba, hbs]
        simp only [List.cons.injEq]
        exact ⟨(blendJoint_eq_iff s hs a a).mpr rfl, (ih as rfl).mpr rfl⟩

/-- The generated frame at offset `k` past the original data. -/
lemma append_loop_getD (data : List Frame) (k : ℕ)
    (hk : k < transitionLen data) :
    (append_loop_frames data).getD (data.length + k) [] =
      loopFrame (data.getD 0 []) (data.getD (data.length - 1) [])
        (smoothstep (((k : ℝ) + 1) / (transitionLen data : ℝ))) := by
  unfold append_loop_frames
  rw [List.getD_append_right _ _ _ _ (Nat.le_add_right _ _),
    Nat.add_sub_cancel_left,
    List.getD_eq_getElem _ _ (by simpa using hk),
    List.getElem_map, List.getElem_range]

/-- C6 (amended): for a non-empty trajectory whose start and end poses
have the same joint count, the last generated frame equals the start
pose exactly, and — provided the start pose differs from the end pose —
the first generated frame differs from the last original frame. -/
theorem C6_loop_endpoints (data : List Frame) (_h : data ≠ [])
    (hlen : (data.getD 0 []).length = (data.getD (data.length - 1) []).length) :
    (append_loop_frames data).getD (data.length + transitionLen data - 1) [] =
      data.getD 0 [] ∧
    (data.getD 0 [] ≠ data.getD (data.length - 1) [] →
      (append_loop_frames data).getD data.length [] ≠
        data.getD (data.length - 1) []) := by
  have h15 : LOOP_MIN_FRAMES ≤ transitionLen data := transitionLen_lower data
  have hL1 : 1 ≤ transitionLen data :=
    le_trans (by norm_num [LOOP_MIN_FRAMES]) h15
  constructor
  · have hidx : data.length + transitionLen data - 1 =
        data.length + (transitionLen data - 1) := by omega
    rw [hidx, append_loop_getD data (transitionLen data - 1) (by omega)]
    have ht : ((↑(transitionLen data - 1) : ℝ) + 1) / (transitionLen data : ℝ) = 1 := by
      have hLne : ((transitionLen data : ℕ) : ℝ) ≠ 0 :=
        Nat.cast_ne_zero.mpr (by omega)
      rw [Nat.cast_sub hL1]
      field_simp
    rw [ht, show smoothstep 1 = 1 from by unfold smoothstep; norm_num]
    unfold loopFrame
    exact zipWith_blendJoint_one _ _ hlen.symm
  · intro hne
    rw [show data.length = data.length + 0 from by omega,
      append_loop_getD data 0 (by omega)]
    have harg : (((0 : ℕ) : ℝ) + 1) / ((transitionLen data : ℕ) : ℝ) =
        1 / ((transitionLen data : ℕ) : ℝ) := by norm_num
    rw [harg]
    have hLpos : (0 : ℝ) < ((transitionLen data : ℕ) : ℝ) :=
      Nat.cast_pos.mpr (by omega)
    have h1L : (0 : ℝ) < 1 / ((transitionLen data : ℕ) : ℝ) := by positivity
    have hle1 : 1 / ((transitionLen data : ℕ) : ℝ) ≤ 1 := by
      rw [div_le_one hLpos]
      exact_mod_cast hL1
    have hspos : 0 < smoothstep (1 / ((transitionLen data : ℕ) : ℝ)) := by
      unfold smoothstep
      have h2 : 0 < 3 - 2 * (1 / ((transitionLen data : ℕ) : ℝ)) := by linarith
      exact mul_pos (mul_pos h1L h1L) h2
    unfold loopFrame
    intro hcontra
    exact hne ((zipWith_blendJoint_eq_iff _ (ne_of_gt hspos) _ _ hlen.symm).mp hcontra)

end Motion

namespace Motion

/-- The maximum joint displacement of the constant trajectory `c6Traj`
is zero. -/
lemma c6Traj_maxDist : maxDist c6Traj = 0 := by
  have h0 : c6Traj.getD 0 [] = [((0 : ℝ), 0, 0)] := rfl
  have h1 : c6Traj.getD (c6Traj.length - 1) [] = [((0 : ℝ), 0, 0)] := rfl
  unfold maxDist
  rw [h0, h1]
  simp only [List.zipWith_cons_cons, List.zipWith_nil_left, List.foldl_cons,
    List.foldl_nil, jointDist_self]
  exact max_eq_right le_rfl

/-- The transition length of `c6Traj` is the clamp minimum, 15. -/
lemma c6Traj_transitionLen : transitionLen c6Traj = 15 := by
  unfold transitionLen
  rw [c6Traj_maxDist]
  norm_num [LOOP_MIN_FRAMES, LOOP_MAX_FRAMES]

/-- Counterexample to C6 as stated: on the constant trajectory `c6Traj`
(start pose equal to end pose), the first generated frame equals the
last original frame, because the blend of two equal poses is that pose
for every weight. -/
theorem C6_counterexample :
    (append_loop_frames c6Traj).getD 2 [] = c6Traj.getD 1 [] := by
  have h := append_loop_getD c6Traj 0 (by rw [c6Traj_transitionLen]; omega)
  have hidx : c6Traj.length + 0 = 2 := rfl
  rw [hidx] at h
  rw [h]
  have h0 : c6Traj.getD 0 [] = [((0 : ℝ), 0, 0)] := rfl
  have h1 : c6Traj.getD (c6Traj.length - 1) [] = [((0 : ℝ), 0, 0)] := rfl
  have h1' : c6Traj.getD 1 [] = [((0 : ℝ), 0, 0)] := rfl
  rw [h0, h1, h1']
  unfold loopFrame blendJoint
  norm_num

end Motion

namespace Motion

/-- Witness for C6 (amended) on `c6WitnessTraj`, whose start pose
differs from its end pose. -/
theorem C6_witness :
    (append_loop_frames c6WitnessTraj).getD
        (c6WitnessTraj.length + transitionLen c6WitnessTraj - 1) [] =
      c6WitnessTraj.getD 0 [] ∧
    (append_loop_frames c6WitnessTraj).getD c6WitnessTraj.length [] ≠
      c6WitnessTraj.getD (c6WitnessTraj.length - 1) [] := by
  have hne : c6WitnessTraj.getD 0 [] ≠
      c6WitnessTraj.getD (c6WitnessTraj.length - 1) [] := by
    have h0 : c6WitnessTraj.getD 0 [] = [((0 : ℝ), 0, 0)] := rfl
    have h1 : c6WitnessTraj.getD (c6WitnessTraj.length - 1) [] =
        [((1 : ℝ), 0, 0)] := rfl
    rw [h0, h1]
    simp only [ne_eq, List.cons.injEq, Prod.mk.injEq]
    norm_num
  have h := C6_loop_endpoints c6WitnessTraj (by simp [c6WitnessTraj]) rfl
  exact ⟨h.1, h.2 hne⟩

end Motion
